import Mathlib

/-!
Shallow embedding of the report assembly pipeline of src/app.py of the
Interview-Assistant repository.  Python strings are modelled through their
character lists; Python str.replace with an empty replacement string is
modelled by pattern specific scanners (remove2, remove3, remove7) that walk
the list left to right and drop every non overlapping occurrence, exactly
as CPython does for a non empty pattern; str.strip is modelled by dropping
whitespace characters from both ends; the values held by the two content
mappings are modelled by an explicit value universe JVal covering the
shapes the claims exercise (a single string, a sequence of strings, a
nested object); a mapping itself is an association list whose list order
is the iteration order of the Python dict, with distinct keys.
-/

/-- Code point 39, the single quote character, used when rendering the
Python str() form of a dict. -/
def squoteChar : Char := Char.ofNat 39

/-- Code point 123, the opening curly brace of the Python str() form of a
dict. -/
def lbraceChar : Char := Char.ofNat 123

/-- Code point 125, the closing curly brace of the Python str() form of a
dict. -/
def rbraceChar : Char := Char.ofNat 125

/-- Code point 96, the fence character used by the model response
wrapper. -/
def backtickChar : Char := Char.ofNat 96

/-- Python text.replace(ab, empty) for a two character pattern: scan left
to right, drop each non overlapping occurrence of the two characters a
then b. -/
def remove2 (a b : Char) : List Char → List Char
  | x :: y :: rest =>
      if x = a ∧ y = b then remove2 a b rest
      else x :: remove2 a b (y :: rest)
  | l => l

/-- Python text.replace(abc, empty) for a three character pattern. -/
def remove3 (a b c : Char) : List Char → List Char
  | x :: y :: z :: rest =>
      if x = a ∧ y = b ∧ z = c then remove3 a b c rest
      else x :: remove3 a b c (y :: z :: rest)
  | l => l

/-- Python text.replace(p1..p7, empty) for a seven character pattern. -/
def remove7 (p1 p2 p3 p4 p5 p6 p7 : Char) : List Char → List Char
  | x1 :: x2 :: x3 :: x4 :: x5 :: x6 :: x7 :: rest =>
      if x1 = p1 ∧ x2 = p2 ∧ x3 = p3 ∧ x4 = p4 ∧ x5 = p5 ∧ x6 = p6 ∧ x7 = p7 then
        remove7 p1 p2 p3 p4 p5 p6 p7 rest
      else x1 :: remove7 p1 p2 p3 p4 p5 p6 p7 (x2 :: x3 :: x4 :: x5 :: x6 :: x7 :: rest)
  | l => l

/-- The Python substring containment test, pat in s. -/
def occurs (pat : List Char) : List Char → Bool
  | [] => pat.isEmpty
  | c :: rest => pat.isPrefixOf (c :: rest) || occurs pat rest

/-- The whitespace test used by Python str.strip on the characters the
claims exercise. -/
def isPySpace (c : Char) : Bool := c.isWhitespace

/-- Python str.strip: remove whitespace from both ends. -/
def stripChars (l : List Char) : List Char :=
  ((l.dropWhile isPySpace).reverse.dropWhile isPySpace).reverse

/-- clean_text from src/app.py lines 114-120 on a string argument:
replace two stars, two underscores, two hashes, three hashes by nothing,
in that order, then strip. -/
def cleanChars (l : List Char) : List Char :=
  stripChars (remove3 '#' '#' '#' (remove2 '#' '#' (remove2 '_' '_' (remove2 '*' '*' l))))

/-- clean_text lifted to strings (the sanitizer of the spec). -/
def cleanText (s : String) : String := String.mk (cleanChars s.data)

/-- Python str.strip lifted to strings. -/
def pyStrip (s : String) : String := String.mk (stripChars s.data)

/-- Python str.lower on the characters the claims exercise. -/
def lowerStr (s : String) : String := String.mk (s.data.map Char.toLower)

/-- The value universe for the entries of structured_analysis and
other_dimensions: a single string, a list of point strings, or a nested
object of string fields. -/
inductive JVal where
  | str (s : String)
  | list (points : List String)
  | obj (fields : List (String × String))
deriving DecidableEq

/-- True exactly on values that Python isinstance(v, list) accepts. -/
def JVal.isListVal : JVal → Bool
  | JVal.list _ => true
  | _ => false

/-- A string in single quotes, as Python repr renders the strings inside a
dict or list. -/
def pyQuoted (s : String) : String := String.mk (squoteChar :: s.data ++ [squoteChar])

/-- Python str() of a JVal: a string is itself, a list and a dict render
in their repr form. -/
def pyStr : JVal → String
  | JVal.str s => s
  | JVal.list ps => "[" ++ String.intercalate ", " (ps.map pyQuoted) ++ "]"
  | JVal.obj fs =>
      String.mk ([lbraceChar] ++
        (String.intercalate ", "
          (fs.map (fun kv => pyQuoted kv.1 ++ ": " ++ pyQuoted kv.2))).data
        ++ [rbraceChar])

/-- Python str.title, used by generate_word_report as the fallback section
title for a key missing from the header map. -/
def pyTitleAux : Bool → List Char → List Char
  | _, [] => []
  | prevAlpha, c :: rest =>
      (if prevAlpha then c.toLower else c.toUpper) :: pyTitleAux c.isAlpha rest

/-- Python str.title lifted to strings. -/
def pyTitle (s : String) : String := String.mk (pyTitleAux false s.data)

/-- Tab stop alignment, from the WD_TAB_ALIGNMENT enumeration; the code
only ever places LEFT aligned stops. -/
inductive TabAlignment where
  | left
  | center
  | right
deriving DecidableEq

/-- python-docx Pt for the half point sizes the code uses: a size given
in half points to EMU (Pt 10.5 is 21 half points, 133350 EMU). -/
def ptHalves (halfPoints : Int) : Int := halfPoints * 6350

/-- python-docx Inches for the quarter inch multiples the code uses: a
length given in quarter inches to EMU (Inches 0.25 is 228600 EMU). -/
def inchesQuarters (quarters : Int) : Int := quarters * 228600

/-- The character level style set_font_style (src/app.py lines 123-128)
writes into a run: a Latin font name, an east Asia font name, a size
(stored in EMU, the exact integer python-docx keeps), an RGB colour, a
bold flag.  A field is none when the code never touches it, which is how
python-docx leaves the default. -/
structure RunStyle where
  latinFont : Option String
  eastAsiaFont : Option String
  size : Option Int
  colorRGB : Option (Nat × Nat × Nat)
  bold : Option Bool
deriving DecidableEq

/-- set_font_style from src/app.py: Times New Roman for Latin text, the
Microsoft YaHei face for east Asia text, the given size (in half points,
converted to EMU as Pt does), pure black, the given bold flag. -/
def setFontStyle (sizeHalfPt : Int) (bold : Bool) : RunStyle :=
  ⟨some "Times New Roman", some "微软雅黑", some (ptHalves sizeHalfPt), some (0, 0, 0), some bold⟩

/-- The style of a run the code never formats. -/
def noRunStyle : RunStyle := ⟨none, none, none, none, none⟩

/-- One output paragraph.  Every paragraph the builder emits carries
exactly one run, so run and paragraph are flattened together: the text of
the run, its character style, and the indent and tab stop fields of the
paragraph format (lengths in EMU integers, exactly as python-docx stores
an Inches value). -/
structure Para where
  text : String
  style : RunStyle
  leftIndent : Option Int
  firstLineIndent : Option Int
  tabStops : List (Int × TabAlignment)
deriving DecidableEq

/-- add_styled_paragraph from src/app.py lines 130-153: clean the text,
then either a hanging indent bullet paragraph (body indent a quarter inch
per level plus the base quarter inch, first line pulled back by the base
quarter inch, a LEFT tab stop at the body indent, text bullet glyph, tab,
cleaned content) or a plain paragraph carrying the cleaned content. -/
def addStyledParagraph (text : String) (bold : Bool) (sizeHalfPt : Int)
    (isBullet : Bool) (indentLevel : Nat) : Para :=
  let cleanContent := cleanText text
  if isBullet then
    let baseIndent : Int := inchesQuarters 1
    let totalIndent : Int := baseIndent + (indentLevel : Int) * inchesQuarters 1
    ⟨"•\t" ++ cleanContent, setFontStyle sizeHalfPt bold,
      some totalIndent, some (-baseIndent), [(totalIndent, TabAlignment.left)]⟩
  else
    ⟨cleanContent, setFontStyle sizeHalfPt bold, none, none, []⟩

/-- The title paragraph of generate_word_report (lines 259-263): the raw
title text, not cleaned, at size 16 points (32 half points) bold. -/
def titleParagraph (text : String) : Para :=
  ⟨text, setFontStyle 32 true, none, none, []⟩

/-- The horizontal rule of generate_word_report line 268: eighty dash
characters added through doc.add_paragraph, so its run keeps the document
default style with no explicit fonts and no explicit colour. -/
def horizontalRulePara : Para :=
  ⟨String.mk (List.replicate 80 '-'), noRunStyle, none, none, []⟩

/-- SECTION_HEADERS from src/app.py lines 156-205, read through
SECTION_HEADERS.get(mode, empty).get(lang_code, empty): mode and language
to the association list of section key and localized title. -/
def sectionHeaders (mode langCode : String) : List (String × String) :=
  if mode = "commercial" then
    if langCode = "zh" then
      [("company_sales", "1. 厂家销售表现"), ("sales_marketing", "2. 销售与营销策略"),
       ("channel_strategy", "3. 销售渠道策略"), ("org_structure", "4. 组织架构与人员"),
       ("competition", "5. 竞争格局"), ("trends", "6. 行业趋势")]
    else if langCode = "en" then
      [("company_sales", "1. Company Sales Performance"),
       ("sales_marketing", "2. Sales & Marketing Strategy"),
       ("channel_strategy", "3. Sales Channel Strategy"),
       ("org_structure", "4. Organizational Structure"),
       ("competition", "5. Competition Landscape"), ("trends", "6. Industry Trends")]
    else []
  else if mode = "clinical" then
    if langCode = "zh" then
      [("clinical_value", "1. 临床价值与疗效"), ("adoption", "2. 临床应用与术式"),
       ("competition", "3. 竞品对比"), ("pain_points", "4. 未满足需求与痛点"),
       ("expectations", "5. 未来预期")]
    else if langCode = "en" then
      [("clinical_value", "1. Clinical Value & Efficacy"), ("adoption", "2. Adoption & Usage"),
       ("competition", "3. Competitive Comparison"),
       ("pain_points", "4. Unmet Needs & Pain Points"),
       ("expectations", "5. Future Expectations")]
    else []
  else if mode = "meeting" then
    if langCode = "zh" then
      [("meeting_context", "1. 会议背景与参会人"), ("key_discussion", "2. 核心讨论内容"),
       ("conclusions", "3. 结论与决策"), ("action_items", "4. 待办事项与下一步 (Follow-up)")]
    else if langCode = "en" then
      [("meeting_context", "1. Context & Attendees"), ("key_discussion", "2. Key Discussion Points"),
       ("conclusions", "3. Conclusions & Decisions"), ("action_items", "4. Action Items & Follow-ups")]
    else []
  else []

/-- The fixed key_order lists of generate_word_report lines 281-287; an
unrecognized mode leaves key_order empty. -/
def keyOrderOf (mode : String) : List String :=
  if mode = "commercial" then
    ["company_sales", "sales_marketing", "channel_strategy", "org_structure",
     "competition", "trends"]
  else if mode = "clinical" then
    ["clinical_value", "adoption", "competition", "pain_points", "expectations"]
  else if mode = "meeting" then
    ["meeting_context", "key_discussion", "conclusions", "action_items"]
  else []

/-- The body of the structured analysis loop (lines 289-299) for one key
of key_order: nothing when the key is absent from the mapping, otherwise
the localized title (or the title cased key as fallback) as a bold 12
point subheading (24 half points), then one bullet paragraph per point
when the value is a list, else one plain paragraph holding the str() form
of the value. -/
def renderStructuredSection (headerMap : List (String × String))
    (structured : List (String × JVal)) (key : String) : List Para :=
  match List.lookup key structured with
  | none => []
  | some points =>
      addStyledParagraph ((List.lookup key headerMap).getD (pyTitle key)) true 24 false 0 ::
        (match points with
         | JVal.list ps => ps.map (fun point => addStyledParagraph point false 22 true 0)
         | v => [addStyledParagraph (pyStr v) false 22 false 0])

/-- Section 3 of generate_word_report (lines 276-299): nothing when the
mapping is empty, otherwise the loop over the fixed key_order. -/
def structuredBlock (mode langCode : String) (structured : List (String × JVal)) : List Para :=
  if structured.isEmpty then []
  else ((keyOrderOf mode).map
    (renderStructuredSection (sectionHeaders mode langCode) structured)).flatten

/-- Section 4 of generate_word_report (lines 301-312): nothing when the
mapping is empty, otherwise the localized Other Findings heading followed,
in mapping iteration order, by each cleaned topic as a bold subheading and
its points rendered exactly as in the structured loop. -/
def otherBlock (otherTitle : String) (otherDims : List (String × JVal)) : List Para :=
  if otherDims.isEmpty then []
  else
    addStyledParagraph otherTitle true 28 false 0 ::
      (otherDims.map (fun kv =>
        addStyledParagraph (cleanText kv.1) true 24 false 0 ::
          (match kv.2 with
           | JVal.list ps => ps.map (fun point => addStyledParagraph point false 22 true 0)
           | v => [addStyledParagraph (pyStr v) false 22 false 0]))).flatten

/-- The language normalization of lines 224-229: default en, then zh when
the lowercased value contains zh, chinese or cn. -/
def langCodeOf (language : Option String) : String :=
  let lang := language.getD "en"
  if occurs "zh".data (lowerStr lang).data || occurs "chinese".data (lowerStr lang).data
      || occurs "cn".data (lowerStr lang).data then "zh" else "en"

/-- The localized fixed strings chosen in lines 231-257. -/
structure Labels where
  titleText : String
  typeText : String
  datePrefix : String
  typePrefix : String
  execTitle : String
  otherTitle : String
deriving DecidableEq

/-- Lines 231-257 of generate_word_report: the title line, the type
label, the date and type prefixes and the two section headings, localized
by lang_code and branched on mode. -/
def reportLabels (langCode mode company product meetingTopic : String) : Labels :=
  if langCode = "zh" then
    if mode = "meeting" then
      ⟨(if meetingTopic ≠ "" then meetingTopic else "内部会议") ++ " - 会议纪要",
        "会议/讨论", "日期", "类型", "摘要概览", "其他补充"⟩
    else
      ⟨company ++ " - " ++ product ++ " 访谈记录",
        (if mode = "commercial" then "商业/厂商" else "临床/专家"),
        "日期", "类型", "执行摘要", "其他发现"⟩
  else
    if mode = "meeting" then
      ⟨(if meetingTopic ≠ "" then meetingTopic else "Internal Meeting") ++ " - Meeting Minutes",
        "Meeting/Discussion", "Date", "Type", "Overview", "Other Findings"⟩
    else
      ⟨company ++ " - " ++ product ++ " Interview Record",
        (if mode = "commercial" then "Trade" else "Clinical/Expert"),
        "Date", "Type", "Executive Summary", "Other Findings"⟩

/-- The parsed extraction result, with the fields generate_word_report
reads through data.get and their absent states. -/
structure ContentData where
  language : Option String
  executive_summary : Option String
  structured_analysis : Option (List (String × JVal))
  other_dimensions : Option (List (String × JVal))
deriving DecidableEq

/-- generate_word_report from src/app.py lines 208-317, as the ordered
list of body paragraphs it appends to the document: title, metadata line,
horizontal rule, then the optional summary pair, the structured analysis
block and the other findings block.  The optional header logo carries no
text run and depends on a filesystem resource, so it lies outside this
body list. -/
def generateWordReport (data : ContentData) (company product date mode meetingTopic : String) :
    List Para :=
  let langCode := langCodeOf data.language
  let L := reportLabels langCode mode company product meetingTopic
  let summary := data.executive_summary.getD ""
  let structured := data.structured_analysis.getD []
  let otherDims := data.other_dimensions.getD []
  [titleParagraph L.titleText,
   addStyledParagraph (L.datePrefix ++ ": " ++ date ++ " | " ++ L.typePrefix ++ ": " ++ L.typeText)
     false 21 false 0,
   horizontalRulePara]
  ++ (if summary ≠ "" then
        [addStyledParagraph L.execTitle true 28 false 0,
         addStyledParagraph summary false 22 false 0]
      else [])
  ++ structuredBlock mode langCode structured
  ++ otherBlock L.otherTitle otherDims

/-- The download file name of src/app.py lines 590-596: the interview
pattern, or the minutes pattern whose empty topic falls back to the word
Meeting. -/
def reportFileName (taskMode company product meetingTopic fileDateStr : String) : String :=
  if taskMode = "interview" then
    "Interview_" ++ company ++ "_" ++ product ++ "_" ++ fileDateStr ++ ".docx"
  else
    "Minutes_" ++ (if meetingTopic ≠ "" then meetingTopic else "Meeting")
      ++ "_" ++ fileDateStr ++ ".docx"

/-- The fence handling of analyze_interview, src/app.py lines 455-459:
when the response text contains the json tagged fence marker, first every
occurrence of the seven character marker is removed, then every remaining
three character fence, and the stripped result is handed to json.loads.
This function is exactly the string handed to json.loads. -/
def extractPayloadText (t : String) : String :=
  let t2 := if occurs "```json".data t.data then
      String.mk (remove3 backtickChar backtickChar backtickChar
        (remove7 backtickChar backtickChar backtickChar 'j' 's' 'o' 'n' t.data))
    else t
  pyStrip t2

/-- The filesystem actions of the module level analysis flow. -/
inductive FsAction where
  | createTmp
  | storeResult
  | removeTmp
deriving DecidableEq

/-- The module level flow of src/app.py lines 564-583: the uploaded audio
is written to a temporary file; process_audio either yields a resource or
fails (upload error or FAILED state); analyze_interview either yields a
parsed result or fails; only inside the doubly successful branch does the
code store the result and call os.remove on the temporary file. -/
def analysisFlow (audioResourceOk analysisResultOk : Bool) : List FsAction :=
  FsAction.createTmp ::
    (if audioResourceOk then
        if analysisResultOk then [FsAction.storeResult, FsAction.removeTmp] else []
      else [])

/-- A list is a prefix of itself followed by anything. -/
theorem preOfAppend (l r : List Char) : l <+: l ++ r := ⟨r, rfl⟩

/-- Prefix on cons decomposes into head equality and a prefix of the
tails. -/
theorem consPreCons {a b : Char} {l₁ l₂ : List Char} :
    (a :: l₁) <+: (b :: l₂) ↔ a = b ∧ l₁ <+: l₂ := by
  constructor
  · rintro ⟨t, ht⟩
    injection ht with h1 h2
    exact ⟨h1, t, h2⟩
  · rintro ⟨rfl, t, ht⟩
    exact ⟨t, by rw [List.cons_append, ht]⟩

/-- A prefix occurs inside the list. -/
theorem infOfPre {p m : List Char} (h : p <+: m) : p <:+: m := by
  rcases h with ⟨t, ht⟩
  exact ⟨[], t, by simpa using ht⟩

/-- An occurrence inside the tail is an occurrence inside the cons. -/
theorem infCons {p : List Char} {a : Char} {t : List Char} (h : p <:+: t) :
    p <:+: a :: t := by
  rcases h with ⟨s, u, hu⟩
  exact ⟨a :: s, u, by rw [List.cons_append, List.cons_append, hu]⟩

/-- An occurrence inside a cons is a prefix of it or an occurrence inside
the tail. -/
theorem infConsElim {p : List Char} {a : Char} {t : List Char} (h : p <:+: a :: t) :
    p <+: a :: t ∨ p <:+: t := by
  rcases h with ⟨s, u, hu⟩
  cases s with
  | nil => exact Or.inl ⟨u, by simpa using hu⟩
  | cons b s2 =>
      right
      injection hu with h1 h2
      exact ⟨s2, u, h2⟩

/-- Nothing with characters occurs inside the empty list. -/
theorem infNilElim {p : List Char} (h : p <:+: ([] : List Char)) : p = [] := by
  rcases h with ⟨s, u, hu⟩
  have := List.append_eq_nil.mp ((List.append_eq_nil.mp hu).1)
  simpa using this.2

/-- The Boolean isPrefixOf agrees with the prefix order. -/
theorem isPrefixOfIffPre (l₁ l₂ : List Char) : l₁.isPrefixOf l₂ = true ↔ l₁ <+: l₂ := by
  induction l₁ generalizing l₂ with
  | nil => simp [List.isPrefixOf]
  | cons a t ih =>
      cases l₂ with
      | nil =>
          simp only [List.isPrefixOf]
          constructor
          · intro h
            cases h
          · rintro ⟨u, hu⟩
            cases hu
      | cons b t2 =>
          simp [List.isPrefixOf, ih, consPreCons, Bool.and_eq_true, beq_iff_eq]

/-- occurs decides the substring relation. -/
theorem occursIff (pat l : List Char) : occurs pat l = true ↔ pat <:+: l := by
  induction l with
  | nil =>
      simp only [occurs, List.isEmpty_iff]
      constructor
      · rintro rfl
        exact ⟨[], [], rfl⟩
      · exact infNilElim
  | cons c t ih =>
      simp only [occurs, Bool.or_eq_true, isPrefixOfIffPre, ih]
      constructor
      · rintro (h | h)
        · exact infOfPre h
        · exact infCons h
      · exact infConsElim

/-- A false occurs test refutes the substring relation. -/
theorem notInfOfOccursFalse {pat l : List Char} (h : occurs pat l = false) :
    ¬ pat <:+: l := by
  intro hi
  rw [(occursIff pat l).mpr hi] at h
  cases h

/-- The two character scanner walks over a head character that cannot
start the pattern. -/
theorem remove2ConsNe (a b c : Char) (t : List Char) (hc : c ≠ a) :
    remove2 a b (c :: t) = c :: remove2 a b t := by
  cases t with
  | nil => rfl
  | cons d t2 =>
      have hcd : ¬ (c = a ∧ d = b) := fun h => hc h.1
      simp [remove2, hcd]

/-- The two character scanner is the identity when the pattern does not
occur. -/
theorem remove2EqSelf (a b : Char) (l : List Char) (h : ¬ [a, b] <:+: l) :
    remove2 a b l = l := by
  induction l with
  | nil => rfl
  | cons c t ih =>
      cases t with
      | nil => rfl
      | cons d t2 =>
          have hcd : ¬ (c = a ∧ d = b) := by
            rintro ⟨rfl, rfl⟩
            exact h (infOfPre ⟨t2, rfl⟩)
          have he : remove2 a b (c :: d :: t2) = c :: remove2 a b (d :: t2) := by
            simp [remove2, hcd]
          rw [he, ih (fun hi => h (infCons hi))]

/-- The two character scanner passes over a block free of the first
pattern character. -/
theorem remove2SkipAppend (a b : Char) (m s : List Char) (hm : ∀ c ∈ m, c ≠ a) :
    remove2 a b (m ++ s) = m ++ remove2 a b s := by
  induction m with
  | nil => rfl
  | cons c m2 ih =>
      rw [List.cons_append, remove2ConsNe a b c _ (hm c (by simp)),
        ih (fun x hx => hm x (by simp [hx])), List.cons_append]

/-- After removing every pair of equal characters a the result holds no
such pair any more. -/
theorem remove2SameNoPairAux (a : Char) :
    ∀ (n : Nat) (l : List Char), l.length ≤ n → ¬ [a, a] <:+: remove2 a a l := by
  intro n
  induction n with
  | zero =>
      intro l hl
      have hz : l = [] := List.length_eq_zero.mp (Nat.le_zero.mp hl)
      subst hz
      intro h
      have h3 := infNilElim (show [a, a] <:+: ([] : List Char) from h)
      simp at h3
  | succ n ih =>
      intro l hl
      rcases l with _ | ⟨c, _ | ⟨d, t⟩⟩
      · intro h
        have h3 := infNilElim (show [a, a] <:+: ([] : List Char) from h)
        simp at h3
      · intro h
        have hlen := List.IsInfix.length_le (by simpa [remove2] using h)
        simp at hlen
      · by_cases hcd : c = a ∧ d = a
        · have he : remove2 a a (c :: d :: t) = remove2 a a t := by
            simp [remove2, hcd]
          rw [he]
          exact ih t (by simp at hl; omega)
        · have he : remove2 a a (c :: d :: t) = c :: remove2 a a (d :: t) := by
            simp [remove2, hcd]
          rw [he]
          intro h
          rcases infConsElim h with hp | hi
          · rcases consPreCons.mp hp with ⟨hca, hp2⟩
            have hd : d ≠ a := fun hda => hcd ⟨hca.symm, hda⟩
            rw [remove2ConsNe a a d t hd] at hp2
            rcases consPreCons.mp hp2 with ⟨had, _⟩
            exact hd had.symm
          · exact ih (d :: t) (by simp at hl ⊢; omega) hi

/-- No pair of equal characters survives its removal pass. -/
theorem remove2SameNoPair (a : Char) (l : List Char) : ¬ [a, a] <:+: remove2 a a l :=
  remove2SameNoPairAux a l.length l Nat.le.refl

/-- The three character scanner walks over a head character that cannot
start the pattern. -/
theorem remove3ConsNe (a b c x : Char) (t : List Char) (hx : x ≠ a) :
    remove3 a b c (x :: t) = x :: remove3 a b c t := by
  rcases t with _ | ⟨y, _ | ⟨z, t2⟩⟩
  · rfl
  · rfl
  · have hxyz : ¬ (x = a ∧ y = b ∧ z = c) := fun h => hx h.1
    simp [remove3, hxyz]

/-- The three character scanner is the identity when the pattern does not
occur. -/
theorem remove3EqSelf (a b c : Char) (l : List Char) (h : ¬ [a, b, c] <:+: l) :
    remove3 a b c l = l := by
  induction l with
  | nil => rfl
  | cons x t ih =>
      rcases t with _ | ⟨y, t2⟩
      · rfl
      · rcases t2 with _ | ⟨z, t3⟩
        · rfl
        · have hxyz : ¬ (x = a ∧ y = b ∧ z = c) := by
            rintro ⟨rfl, rfl, rfl⟩
            exact h (infOfPre ⟨t3, rfl⟩)
          have he : remove3 a b c (x :: y :: z :: t3) = x :: remove3 a b c (y :: z :: t3) := by
            simp [remove3, hxyz]
          rw [he, ih (fun hi => h (infCons hi))]

/-- The three character scanner passes over a block free of the first
pattern character. -/
theorem remove3SkipAppend (a b c : Char) (m s : List Char) (hm : ∀ x ∈ m, x ≠ a) :
    remove3 a b c (m ++ s) = m ++ remove3 a b c s := by
  induction m with
  | nil => rfl
  | cons x m2 ih =>
      rw [List.cons_append, remove3ConsNe a b c x _ (hm x (by simp)),
        ih (fun y hy => hm y (by simp [hy])), List.cons_append]

/-- The three character scanner removes a leading occurrence. -/
theorem remove3HeadMatch (a b c : Char) (rest : List Char) :
    remove3 a b c (a :: b :: c :: rest) = remove3 a b c rest := by
  simp [remove3]

/-- The seven character scanner walks over a head character that cannot
start the pattern. -/
theorem remove7ConsNe (p1 p2 p3 p4 p5 p6 p7 x : Char) (t : List Char) (hx : x ≠ p1) :
    remove7 p1 p2 p3 p4 p5 p6 p7 (x :: t) = x :: remove7 p1 p2 p3 p4 p5 p6 p7 t := by
  rcases t with _ | ⟨x2, _ | ⟨x3, _ | ⟨x4, _ | ⟨x5, _ | ⟨x6, _ | ⟨x7, rest⟩⟩⟩⟩⟩⟩
  · rfl
  · rfl
  · rfl
  · rfl
  · rfl
  · rfl
  · have hc : ¬ (x = p1 ∧ x2 = p2 ∧ x3 = p3 ∧ x4 = p4 ∧ x5 = p5 ∧ x6 = p6 ∧ x7 = p7) :=
      fun h => hx h.1
    simp [remove7, hc]

/-- The seven character scanner passes over a block free of the first
pattern character. -/
theorem remove7SkipAppend (p1 p2 p3 p4 p5 p6 p7 : Char) (m s : List Char)
    (hm : ∀ x ∈ m, x ≠ p1) :
    remove7 p1 p2 p3 p4 p5 p6 p7 (m ++ s) = m ++ remove7 p1 p2 p3 p4 p5 p6 p7 s := by
  induction m with
  | nil => rfl
  | cons x m2 ih =>
      rw [List.cons_append, remove7ConsNe p1 p2 p3 p4 p5 p6 p7 x _ (hm x (by simp)),
        ih (fun y hy => hm y (by simp [hy])), List.cons_append]

/-- The seven character scanner removes a leading occurrence. -/
theorem remove7HeadMatch (p1 p2 p3 p4 p5 p6 p7 : Char) (rest : List Char) :
    remove7 p1 p2 p3 p4 p5 p6 p7 (p1 :: p2 :: p3 :: p4 :: p5 :: p6 :: p7 :: rest)
      = remove7 p1 p2 p3 p4 p5 p6 p7 rest := by
  simp [remove7]

/-- The head surviving dropWhile fails the predicate. -/
theorem dropWhileHeadFalse (p : Char → Bool) :
    ∀ (l : List Char) (d : Char) (ds : List Char), l.dropWhile p = d :: ds → p d = false := by
  intro l
  induction l with
  | nil => intro d ds h; cases h
  | cons a t ih =>
      intro d ds h
      rw [List.dropWhile_cons] at h
      by_cases hp : p a = true
      · rw [if_pos hp] at h
        exact ih d ds h
      · rw [if_neg hp] at h
        injection h with h1 _
        subst h1
        exact Bool.eq_false_iff.mpr hp

/-- dropWhile is idempotent. -/
theorem dropWhileIdem (p : Char → Bool) (l : List Char) :
    (l.dropWhile p).dropWhile p = l.dropWhile p := by
  rcases h : l.dropWhile p with _ | ⟨d, ds⟩
  · rfl
  · rw [List.dropWhile_cons, if_neg (by simp [dropWhileHeadFalse p l d ds h])]

/-- dropWhile yields a suffix. -/
theorem dropWhileSuffixOf (p : Char → Bool) (l : List Char) : l.dropWhile p <:+ l := by
  induction l with
  | nil => exact ⟨[], rfl⟩
  | cons a t ih =>
      rw [List.dropWhile_cons]
      by_cases hp : p a = true
      · rw [if_pos hp]
        exact ih.trans ⟨[a], rfl⟩
      · rw [if_neg hp]

/-- Stripping walks over a leading whitespace character. -/
theorem stripConsWs (c : Char) (hc : isPySpace c = true) (l : List Char) :
    stripChars (c :: l) = stripChars l := by
  unfold stripChars
  rw [List.dropWhile_cons, if_pos hc]

/-- dropWhile across an appended block once a survivor exists. -/
theorem dropWhileAppendCons (p : Char → Bool) :
    ∀ (l m : List Char) (d : Char) (ds : List Char),
      l.dropWhile p = d :: ds → (l ++ m).dropWhile p = d :: ds ++ m := by
  intro l
  induction l with
  | nil => intro m d ds h; cases h
  | cons a t ih =>
      intro m d ds h
      rw [List.dropWhile_cons] at h
      rw [List.cons_append, List.dropWhile_cons]
      by_cases hp : p a = true
      · rw [if_pos hp] at h ⊢
        exact ih m d ds h
      · rw [if_neg hp] at h ⊢
        injection h with h1 h2
        subst h1
        subst h2
        rfl

/-- Stripping swallows a trailing whitespace character. -/
theorem stripAppendWs (c : Char) (hc : isPySpace c = true) (l : List Char) :
    stripChars (l ++ [c]) = stripChars l := by
  unfold stripChars
  rcases h : l.dropWhile isPySpace with _ | ⟨d, ds⟩
  · have hall : ∀ x ∈ l, isPySpace x = true := List.dropWhile_eq_nil_iff.mp h
    have h2 : (l ++ [c]).dropWhile isPySpace = [] := by
      rw [List.dropWhile_eq_nil_iff]
      intro x hx
      rcases List.mem_append.mp hx with hx | hx
      · exact hall x hx
      · simp only [List.mem_singleton] at hx
        subst hx
        exact hc
    rw [h2]
  · rw [dropWhileAppendCons isPySpace l [c] d ds h]
    congr 1
    rw [show (d :: ds ++ [c]).reverse = c :: (d :: ds).reverse by simp]
    rw [List.dropWhile_cons, if_pos hc]

/-- Stripping is idempotent. -/
theorem stripIdem (l : List Char) : stripChars (stripChars l) = stripChars l := by
  unfold stripChars
  rcases hA : l.dropWhile isPySpace with _ | ⟨d, ds⟩
  · simp
  · have hd : isPySpace d = false := dropWhileHeadFalse _ l d ds hA
    rcases dropWhileSuffixOf isPySpace (d :: ds).reverse with ⟨u, hu⟩
    have hrev : ((d :: ds).reverse.dropWhile isPySpace).reverse ++ u.reverse = d :: ds := by
      have h2 := congrArg List.reverse hu
      simpa using h2
    rcases hBr : ((d :: ds).reverse.dropWhile isPySpace).reverse with _ | ⟨e, es⟩
    · simp
    · have hed : e = d := by
        rw [hBr] at hrev
        injection hrev with h1 _
      have h1 : (e :: es).reverse = (d :: ds).reverse.dropWhile isPySpace := by
        rw [← hBr, List.reverse_reverse]
      rw [List.dropWhile_cons, if_neg (by simp [hed, hd])]
      calc ((e :: es).reverse.dropWhile isPySpace).reverse
          = (((d :: ds).reverse.dropWhile isPySpace).dropWhile isPySpace).reverse := by
            rw [h1]
        _ = ((d :: ds).reverse.dropWhile isPySpace).reverse := by rw [dropWhileIdem]
        _ = e :: es := hBr

/-- The stripped list occurs inside the original. -/
theorem stripInfixOf (l : List Char) : stripChars l <:+: l := by
  unfold stripChars
  rcases dropWhileSuffixOf isPySpace ((l.dropWhile isPySpace).reverse) with ⟨u, hu⟩
  have hpre : ((l.dropWhile isPySpace).reverse.dropWhile isPySpace).reverse
      <+: l.dropWhile isPySpace := by
    refine ⟨u.reverse, ?_⟩
    have h2 := congrArg List.reverse hu
    simpa using h2
  rcases hpre with ⟨v, hv⟩
  rcases dropWhileSuffixOf isPySpace l with ⟨w, hw⟩
  exact ⟨w, v, by rw [List.append_assoc, hv, hw]⟩

/-- Stripping cannot create an occurrence of a pattern. -/
theorem stripPreservesNotInf {pat l : List Char} (h : ¬ pat <:+: l) :
    ¬ pat <:+: stripChars l :=
  fun hi => h (hi.trans (stripInfixOf l))

/-- Key lookup in an association list with distinct keys only depends on
the underlying set of bindings: permuting the list leaves it unchanged. -/
theorem lookupEqOfPerm (k : String) (s₁ s₂ : List (String × JVal))
    (hp : s₁.Perm s₂) (hnd : (s₁.map Prod.fst).Nodup) :
    List.lookup k s₁ = List.lookup k s₂ := by
  induction hp with
  | nil => rfl
  | cons x hp ih =>
      obtain ⟨a, b⟩ := x
      simp only [List.map_cons, List.nodup_cons] at hnd
      simp only [List.lookup]
      cases hka : k == a
      · exact ih hnd.2
      · rfl
  | swap x y t =>
      obtain ⟨a, b⟩ := x
      obtain ⟨c, d⟩ := y
      simp only [List.map_cons, List.nodup_cons, List.mem_cons] at hnd
      have hca : c ≠ a := fun h => hnd.1 (Or.inl h)
      simp only [List.lookup]
      cases hkc : k == c
      · cases hka : k == a <;> rfl
      · cases hka : k == a
        · rfl
        · exact absurd ((beq_iff_eq.mp hkc).symm.trans (beq_iff_eq.mp hka)) hca
  | trans hp1 hp2 ih1 ih2 =>
      rw [ih1 hnd, ih2 ((hp1.map Prod.fst).nodup_iff.mp hnd)]

/-- A key looks up successfully exactly when it occurs among the keys. -/
theorem lookupIsSomeIffMem (k : String) (s : List (String × JVal)) :
    (List.lookup k s).isSome = true ↔ k ∈ s.map Prod.fst := by
  induction s with
  | nil => simp [List.lookup]
  | cons a t ih =>
      obtain ⟨a1, a2⟩ := a
      simp only [List.lookup, List.map_cons, List.mem_cons]
      cases hka : k == a1
      · have hne : k ≠ a1 := fun h => by rw [h] at hka; simp at hka
        rw [ih]
        constructor
        · exact Or.inr
        · rintro (h | h)
          · exact absurd h hne
          · exact h
      · simp [beq_iff_eq.mp hka]

/-- Flattening a map whose function vanishes outside a Boolean filter
agrees with flattening over the filtered list. -/
theorem flattenMapFilter {α : Type} (f : α → List Para) (P : α → Bool) (l : List α)
    (hf : ∀ k, P k = false → f k = []) :
    (l.map f).flatten = ((l.filter P).map f).flatten := by
  induction l with
  | nil => rfl
  | cons a t ih =>
      by_cases h : P a = true
      · simp only [List.map_cons, List.flatten_cons, List.filter_cons, h, if_true, ih]
      · have h0 : P a = false := by simp at h; exact h
        simp only [List.map_cons, List.flatten_cons, List.filter_cons, h0, Bool.false_eq_true,
          if_false, hf a h0, List.nil_append, ih]

/-- A section of the structured loop only reads the mapping through
lookup, so permuting a distinct key mapping does not change it. -/
theorem renderSectionPerm (hm : List (String × String)) (s₁ s₂ : List (String × JVal))
    (hp : s₁.Perm s₂) (hnd : (s₁.map Prod.fst).Nodup) (k : String) :
    renderStructuredSection hm s₁ k = renderStructuredSection hm s₂ k := by
  unfold renderStructuredSection
  rw [lookupEqOfPerm k s₁ s₂ hp hnd]

/-- The structured block is invariant under permutation of a distinct key
mapping. -/
theorem structuredBlockPerm (mode lc : String) (s₁ s₂ : List (String × JVal))
    (hp : s₁.Perm s₂) (hnd : (s₁.map Prod.fst).Nodup) :
    structuredBlock mode lc s₁ = structuredBlock mode lc s₂ := by
  unfold structuredBlock
  have hemp : s₁.isEmpty = s₂.isEmpty := by
    have hl := hp.length_eq
    cases s₁ <;> cases s₂ <;> simp_all
  rw [hemp]
  cases hse : s₂.isEmpty
  · simp only [Bool.false_eq_true, if_false]
    rw [funext (renderSectionPerm (sectionHeaders mode lc) s₁ s₂ hp hnd)]
  · simp

/-- Strings with equal character lists are equal. -/
theorem strExt {a b : String} (h : a.data = b.data) : a = b := by
  cases a
  cases b
  exact congrArg String.mk h

/-- The character list of an appended string. -/
theorem strDataAppend (a b : String) : (a ++ b).data = a.data ++ b.data := rfl

/-- Claim C3 counterexample: the sanitizer is not idempotent as claimed;
on the four character input star underscore underscore star the first
pass removes the underscore pair and thereby creates a fresh double star
marker, which only a second pass removes. -/
theorem c3_sanitize_idempotent_counterexample :
    cleanText (cleanText "*__*") ≠ cleanText "*__*" := by decide

/-- Claim C3 (amended): the sanitizer is idempotent on every input whose
sanitized form retains none of the four marker substrings; in general a
removal pass can create a fresh marker, so the unrestricted claim fails. -/
theorem c3_sanitize_idempotent (s : String)
    (h1 : occurs "**".data (cleanText s).data = false)
    (h2 : occurs "__".data (cleanText s).data = false)
    (h3 : occurs "##".data (cleanText s).data = false)
    (h4 : occurs "###".data (cleanText s).data = false) :
    cleanText (cleanText s) = cleanText s := by
  have hstar : remove2 '*' '*' (cleanText s).data = (cleanText s).data :=
    remove2EqSelf '*' '*' _ (notInfOfOccursFalse h1)
  have hund : remove2 '_' '_' (cleanText s).data = (cleanText s).data :=
    remove2EqSelf '_' '_' _ (notInfOfOccursFalse h2)
  have hhash2 : remove2 '#' '#' (cleanText s).data = (cleanText s).data :=
    remove2EqSelf '#' '#' _ (notInfOfOccursFalse h3)
  have hhash3 : remove3 '#' '#' '#' (cleanText s).data = (cleanText s).data :=
    remove3EqSelf '#' '#' '#' _ (notInfOfOccursFalse h4)
  have hstrip : stripChars (cleanText s).data = (cleanText s).data :=
    stripIdem (remove3 '#' '#' '#' (remove2 '#' '#' (remove2 '_' '_' (remove2 '*' '*' s.data))))
  have hfix : cleanChars (cleanText s).data = (cleanText s).data := by
    unfold cleanChars
    rw [hstar, hund, hhash2, hhash3]
    exact hstrip
  show String.mk (cleanChars (cleanText s).data) = cleanText s
  rw [hfix]

/-- Claim C3 witness: the hypotheses of the amended idempotence theorem
hold on a concrete sanitized input and the theorem applies there. -/
theorem c3_sanitize_idempotent_witness :
    occurs "**".data (cleanText " hi there ").data = false
    ∧ occurs "__".data (cleanText " hi there ").data = false
    ∧ occurs "##".data (cleanText " hi there ").data = false
    ∧ occurs "###".data (cleanText " hi there ").data = false
    ∧ cleanText (cleanText " hi there ") = cleanText " hi there " :=
  ⟨by decide, by decide, by decide, by decide,
    c3_sanitize_idempotent " hi there " (by decide) (by decide) (by decide) (by decide)⟩

/-- Claim C4 counterexample: the sanitizer does not remove all double
star occurrences, because removing the underscore pair of the input star
underscore underscore star creates a fresh double star that survives into
the output. -/
theorem c4_sanitize_markers_counterexample :
    occurs "**".data (cleanText "*__*").data = true := by decide

/-- Claim C4 (amended): the sanitized output never contains a double or
triple hash marker, and the markdown leak example point renders as the
plain text Revenue grew fast; double star and double underscore markers,
however, can survive when an earlier removal pass creates them. -/
theorem c4_sanitize_markers :
    (∀ s : String, occurs "##".data (cleanText s).data = false
        ∧ occurs "###".data (cleanText s).data = false)
    ∧ cleanText "**Revenue** grew ##fast" = "Revenue grew fast" := by
  constructor
  · intro s
    have hnopair : ¬ ['#', '#'] <:+:
        remove2 '#' '#' (remove2 '_' '_' (remove2 '*' '*' s.data)) :=
      remove2SameNoPair '#' _
    have hsub : ['#', '#'] <:+: ['#', '#', '#'] := ⟨[], ['#'], rfl⟩
    have hnotriple : ¬ ['#', '#', '#'] <:+:
        remove2 '#' '#' (remove2 '_' '_' (remove2 '*' '*' s.data)) :=
      fun h => hnopair (hsub.trans h)
    have h3 : remove3 '#' '#' '#' (remove2 '#' '#' (remove2 '_' '_' (remove2 '*' '*' s.data)))
        = remove2 '#' '#' (remove2 '_' '_' (remove2 '*' '*' s.data)) :=
      remove3EqSelf '#' '#' '#' _ hnotriple
    have hfinal : ¬ ['#', '#'] <:+: cleanChars s.data := by
      unfold cleanChars
      rw [h3]
      exact stripPreservesNotInf hnopair
    constructor
    · cases hocc : occurs "##".data (cleanText s).data
      · rfl
      · exact absurd ((occursIff _ _).mp hocc) hfinal
    · cases hocc : occurs "###".data (cleanText s).data
      · rfl
      · exact absurd (hsub.trans ((occursIff _ _).mp hocc)) hfinal
  · decide

/-- Claim C7: a bullet paragraph at indent level zero carries a quarter
inch body indent, a negative quarter inch first line indent, one LEFT tab
stop at the quarter inch position, and the bullet glyph, a tab and the
sanitized point text. -/
theorem c7_bullet_layout (text : String) (bold : Bool) (size : Int) :
    (addStyledParagraph text bold size true 0).leftIndent = some (inchesQuarters 1)
    ∧ (addStyledParagraph text bold size true 0).firstLineIndent = some (-(inchesQuarters 1))
    ∧ (addStyledParagraph text bold size true 0).tabStops = [(inchesQuarters 1, TabAlignment.left)]
    ∧ (addStyledParagraph text bold size true 0).text = "•\t" ++ cleanText text := by
  simp [addStyledParagraph]

/-- Claim C9: the temporary audio file is removed only in the doubly
successful branch of the analysis flow; every failure path (upload or
processing failure, and unparseable or absent analysis result) leaves it
behind, so cleanup does not occur on failure paths as the claim
requires. -/
theorem c9_tmp_file_removed_only_on_success :
    FsAction.removeTmp ∉ analysisFlow false false
    ∧ FsAction.removeTmp ∉ analysisFlow false true
    ∧ FsAction.removeTmp ∉ analysisFlow true false
    ∧ FsAction.removeTmp ∈ analysisFlow true true := by decide

/-- Claim C1: for each of the three modes, a structured analysis mapping
with distinct keys drawn from the taxonomy renders its sections in the
taxonomy key_order, not in mapping iteration order: the built document is
unchanged under any permutation of the mapping, the structured block is
exactly the flattening of the key_order filtered to present keys (so the
render order is the canonical order and covers exactly the input keys),
and in particular the clinical example with iteration order expectations
then clinical_value renders clinical_value first. -/
theorem c1_taxonomy_order
    (mode : String)
    (hmode : mode = "commercial" ∨ mode = "clinical" ∨ mode = "meeting")
    (language es : Option String) (od : Option (List (String × JVal)))
    (company product date topic : String)
    (s₁ s₂ : List (String × JVal)) (hperm : s₁.Perm s₂)
    (hnd : (s₁.map Prod.fst).Nodup)
    (hsub : ∀ k ∈ s₁.map Prod.fst, k ∈ keyOrderOf mode) :
    generateWordReport ⟨language, es, some s₁, od⟩ company product date mode topic
      = generateWordReport ⟨language, es, some s₂, od⟩ company product date mode topic
    ∧ structuredBlock mode (langCodeOf language) s₁
        = (((keyOrderOf mode).filter (fun k => (List.lookup k s₁).isSome)).map
            (renderStructuredSection (sectionHeaders mode (langCodeOf language)) s₁)).flatten
    ∧ (∀ k, k ∈ (keyOrderOf mode).filter (fun k => (List.lookup k s₁).isSome)
          ↔ k ∈ s₁.map Prod.fst)
    ∧ structuredBlock "clinical" "en"
        [("expectations", JVal.list ["Next-gen features"]),
         ("clinical_value", JVal.list ["Strong efficacy"])]
      = [addStyledParagraph "1. Clinical Value & Efficacy" true 24 false 0,
         addStyledParagraph "Strong efficacy" false 22 true 0,
         addStyledParagraph "5. Future Expectations" true 24 false 0,
         addStyledParagraph "Next-gen features" false 22 true 0] := by
  refine ⟨?_, ?_, ?_, by decide⟩
  · unfold generateWordReport
    simp only [Option.getD_some]
    rw [structuredBlockPerm mode (langCodeOf language) s₁ s₂ hperm hnd]
  · rcases hs : s₁ with _ | ⟨a, t⟩
    · simp [structuredBlock, List.lookup]
    · have hf : ∀ k, ((List.lookup k (a :: t)).isSome = false) →
          renderStructuredSection (sectionHeaders mode (langCodeOf language)) (a :: t) k = [] := by
        intro k hk
        unfold renderStructuredSection
        rcases hlk : List.lookup k (a :: t) with _ | v
        · rfl
        · rw [hlk] at hk
          simp at hk
      simp only [structuredBlock, List.isEmpty_cons, Bool.false_eq_true, if_false]
      exact flattenMapFilter _ _ _ hf
  · intro k
    simp only [List.mem_filter]
    constructor
    · rintro ⟨hk1, hk2⟩
      exact (lookupIsSomeIffMem k s₁).mp hk2
    · intro hk
      exact ⟨hsub k hk, (lookupIsSomeIffMem k s₁).mpr hk⟩

/-- Claim C1 witness: the order invariance theorem applied to the
concrete clinical mapping given in the two opposite iteration orders. -/
theorem c1_taxonomy_order_witness :
    ([("expectations", JVal.list ["Next-gen features"]),
      ("clinical_value", JVal.list ["Strong efficacy"])] : List (String × JVal)).Perm
      [("clinical_value", JVal.list ["Strong efficacy"]),
       ("expectations", JVal.list ["Next-gen features"])]
    ∧ generateWordReport
        ⟨some "en", some "", some [("expectations", JVal.list ["Next-gen features"]),
          ("clinical_value", JVal.list ["Strong efficacy"])], some []⟩
        "Acme" "Widget" "2026-01-01" "clinical" ""
      = generateWordReport
        ⟨some "en", some "", some [("clinical_value", JVal.list ["Strong efficacy"]),
          ("expectations", JVal.list ["Next-gen features"])], some []⟩
        "Acme" "Widget" "2026-01-01" "clinical" "" :=
  ⟨by decide,
    (c1_taxonomy_order "clinical" (Or.inr (Or.inl rfl)) (some "en") (some "") (some [])
      "Acme" "Widget" "2026-01-01" ""
      [("expectations", JVal.list ["Next-gen features"]),
       ("clinical_value", JVal.list ["Strong efficacy"])]
      [("clinical_value", JVal.list ["Strong efficacy"]),
       ("expectations", JVal.list ["Next-gen features"])]
      (by decide) (by decide) (by decide)).1⟩

/-- Claim C2 counterexample: on a structured analysis whose trends value
is a nested object the builder does not fail with any MalformedContent
error; it returns a complete five paragraph document in which the object
is coerced to its str() form and rendered as a plain paragraph under the
trends heading. -/
theorem c2_malformed_counterexample :
    generateWordReport
        ⟨some "en", some "", some [("trends", JVal.obj [("nested", "object")])], some []⟩
        "Acme" "Widget" "2026-01-01" "commercial" ""
      = [titleParagraph "Acme - Widget Interview Record",
         addStyledParagraph "Date: 2026-01-01 | Type: Trade" false 21 false 0,
         horizontalRulePara,
         addStyledParagraph "6. Industry Trends" true 24 false 0,
         addStyledParagraph (pyStr (JVal.obj [("nested", "object")])) false 22 false 0] := by
  decide

/-- Claim C2 (amended): build never fails on a malformed value; any value
of structured_analysis that is not a list, a nested object as much as a
single string, is coerced through str() and rendered as one plain
paragraph under its section heading, and the builder always returns a non
empty document. -/
theorem c2_nonlist_coerced (hm : List (String × String)) (s : List (String × JVal))
    (k : String) (v : JVal) (hl : List.lookup k s = some v)
    (hnl : v.isListVal = false) :
    renderStructuredSection hm s k
      = [addStyledParagraph ((List.lookup k hm).getD (pyTitle k)) true 24 false 0,
         addStyledParagraph (pyStr v) false 22 false 0]
    ∧ ∀ (data : ContentData) (company product date mode topic : String),
        generateWordReport data company product date mode topic ≠ [] := by
  constructor
  · unfold renderStructuredSection
    rw [hl]
    cases v with
    | str s2 => rfl
    | list ps => simp [JVal.isListVal] at hnl
    | obj fs => rfl
  · intro data company product date mode topic
    unfold generateWordReport
    simp

/-- Claim C2 witness: the coercion theorem applied to the nested object
example of the spec. -/
theorem c2_nonlist_coerced_witness :
    List.lookup "trends" [("trends", JVal.obj [("nested", "object")])]
        = some (JVal.obj [("nested", "object")])
    ∧ (JVal.obj [("nested", "object")]).isListVal = false
    ∧ renderStructuredSection [] [("trends", JVal.obj [("nested", "object")])] "trends"
      = [addStyledParagraph
           ((List.lookup "trends" ([] : List (String × String))).getD (pyTitle "trends"))
           true 24 false 0,
         addStyledParagraph (pyStr (JVal.obj [("nested", "object")])) false 22 false 0] :=
  ⟨by decide, by decide,
    (c2_nonlist_coerced [] [("trends", JVal.obj [("nested", "object")])] "trends"
      (JVal.obj [("nested", "object")]) (by decide) (by decide)).1⟩

/-- Claim C5 counterexample: an unrecognized mode string does not fail
with any UnknownMode error; the builder silently returns a three
paragraph document (title, metadata, rule) from which the structured
section, although present in the input mapping, is entirely missing. -/
theorem c5_unknown_mode_counterexample :
    generateWordReport
        ⟨some "en", some "", some [("clinical_value", JVal.list ["Strong efficacy"])], some []⟩
        "Acme" "Widget" "2026-01-01" "bogus" ""
      = [titleParagraph "Acme - Widget Interview Record",
         addStyledParagraph "Date: 2026-01-01 | Type: Clinical/Expert" false 21 false 0,
         horizontalRulePara] := by
  decide

/-- Claim C5 (amended): a mode outside the three known ones is not
rejected; key_order stays empty, the structured block renders nothing,
and the built report equals the one built from an empty structured
analysis, all structured sections silently missing. -/
theorem c5_unknown_mode_silent (mode : String)
    (h1 : mode ≠ "commercial") (h2 : mode ≠ "clinical") (h3 : mode ≠ "meeting")
    (lc : String) (s : List (String × JVal))
    (language es : Option String) (od : Option (List (String × JVal)))
    (company product date topic : String) :
    structuredBlock mode lc s = []
    ∧ generateWordReport ⟨language, es, some s, od⟩ company product date mode topic
      = generateWordReport ⟨language, es, some [], od⟩ company product date mode topic := by
  have hko : keyOrderOf mode = [] := by
    unfold keyOrderOf
    rw [if_neg h1, if_neg h2, if_neg h3]
  have hblock : ∀ (s2 : List (String × JVal)) (lc2 : String),
      structuredBlock mode lc2 s2 = [] := by
    intro s2 lc2
    unfold structuredBlock
    rw [hko]
    cases s2.isEmpty <;> simp
  refine ⟨hblock s lc, ?_⟩
  unfold generateWordReport
  simp only [Option.getD_some]
  rw [hblock, hblock]

/-- Claim C5 witness: the silent fallthrough theorem applied to a
concrete unknown mode. -/
theorem c5_unknown_mode_silent_witness :
    structuredBlock "bogus" "en" [("clinical_value", JVal.list ["Strong efficacy"])] = []
    ∧ generateWordReport
        ⟨some "en", some "", some [("clinical_value", JVal.list ["Strong efficacy"])], some []⟩
        "Acme" "Widget" "2026-01-01" "bogus" ""
      = generateWordReport ⟨some "en", some "", some [], some []⟩
        "Acme" "Widget" "2026-01-01" "bogus" "" :=
  c5_unknown_mode_silent "bogus" (by decide) (by decide) (by decide) "en"
    [("clinical_value", JVal.list ["Strong efficacy"])] (some "en") (some "") (some [])
    "Acme" "Widget" "2026-01-01" ""

/-- add_styled_paragraph always styles its single run through
set_font_style, in the bullet branch and in the plain branch alike. -/
theorem addStyledStyleEq (text : String) (bold : Bool) (size : Int) (ib : Bool) (lvl : Nat) :
    (addStyledParagraph text bold size ib lvl).style = setFontStyle size bold := by
  unfold addStyledParagraph
  cases ib <;> rfl

/-- Every paragraph of a structured section comes from
add_styled_paragraph. -/
theorem memRenderSectionAdd (hm : List (String × String)) (s : List (String × JVal))
    (k : String) (p : Para) (hp : p ∈ renderStructuredSection hm s k) :
    ∃ t b sz ib lv, p = addStyledParagraph t b sz ib lv := by
  unfold renderStructuredSection at hp
  rcases hlk : List.lookup k s with _ | v
  · rw [hlk] at hp
    cases hp
  · rw [hlk] at hp
    rcases List.mem_cons.mp hp with hp | hp
    · exact ⟨_, _, _, _, _, hp⟩
    · cases v with
      | list ps =>
          rcases List.mem_map.mp hp with ⟨pt, _, hpt⟩
          exact ⟨_, _, _, _, _, hpt.symm⟩
      | str s2 =>
          rcases List.mem_singleton.mp hp with rfl
          exact ⟨_, _, _, _, _, rfl⟩
      | obj fs =>
          rcases List.mem_singleton.mp hp with rfl
          exact ⟨_, _, _, _, _, rfl⟩

/-- Every paragraph of the structured block comes from
add_styled_paragraph. -/
theorem memStructuredBlockAdd (mode lc : String) (s : List (String × JVal)) (p : Para)
    (hp : p ∈ structuredBlock mode lc s) :
    ∃ t b sz ib lv, p = addStyledParagraph t b sz ib lv := by
  unfold structuredBlock at hp
  split at hp
  · cases hp
  · rcases List.mem_flatten.mp hp with ⟨lst, hlst, hplst⟩
    rcases List.mem_map.mp hlst with ⟨k, _, hk⟩
    exact memRenderSectionAdd _ _ k p (hk ▸ hplst)

/-- Every paragraph of the other findings block comes from
add_styled_paragraph. -/
theorem memOtherBlockAdd (otherTitle : String) (od : List (String × JVal)) (p : Para)
    (hp : p ∈ otherBlock otherTitle od) :
    ∃ t b sz ib lv, p = addStyledParagraph t b sz ib lv := by
  unfold otherBlock at hp
  split at hp
  · cases hp
  · rcases List.mem_cons.mp hp with hp | hp
    · exact ⟨_, _, _, _, _, hp⟩
    · rcases List.mem_flatten.mp hp with ⟨lst, hlst, hplst⟩
      rcases List.mem_map.mp hlst with ⟨kv, _, hk⟩
      subst hk
      rcases List.mem_cons.mp hplst with hq | hq
      · exact ⟨_, _, _, _, _, hq⟩
      · cases hv : kv.2 with
        | list ps =>
            rw [hv] at hq
            rcases List.mem_map.mp hq with ⟨pt, _, hpt⟩
            exact ⟨_, _, _, _, _, hpt.symm⟩
        | str s2 =>
            rw [hv] at hq
            rcases List.mem_singleton.mp hq with rfl
            exact ⟨_, _, _, _, _, rfl⟩
        | obj fs =>
            rw [hv] at hq
            rcases List.mem_singleton.mp hq with rfl
            exact ⟨_, _, _, _, _, rfl⟩

/-- Claim C8 counterexample: the horizontal rule line is a text run of
the built document whose style carries no Latin face, no east Asia face
and no colour, so not every run specifies the two faces and black. -/
theorem c8_fonts_counterexample :
    horizontalRulePara ∈ generateWordReport ⟨some "en", some "Summary", some [], some []⟩
        "Acme" "Widget" "2026-01-01" "commercial" ""
    ∧ horizontalRulePara.style.latinFont = none
    ∧ horizontalRulePara.style.eastAsiaFont = none
    ∧ horizontalRulePara.style.colorRGB = none := by decide

/-- Claim C8 (amended): every text run of the built document other than
the horizontal rule line carries the Latin face Times New Roman, the east
Asia face Microsoft YaHei and pure black; the rule line alone is added
through doc.add_paragraph and keeps the default run style. -/
theorem c8_fonts_and_color (data : ContentData) (company product date mode topic : String) :
    ∀ p ∈ generateWordReport data company product date mode topic,
      p = horizontalRulePara ∨
        (p.style.latinFont = some "Times New Roman"
          ∧ p.style.eastAsiaFont = some "微软雅黑"
          ∧ p.style.colorRGB = some (0, 0, 0)) := by
  intro p hp
  have hadd : ∀ (t : String) (b : Bool) (sz : Int) (ib : Bool) (lv : Nat),
      p = addStyledParagraph t b sz ib lv →
      p.style.latinFont = some "Times New Roman"
        ∧ p.style.eastAsiaFont = some "微软雅黑"
        ∧ p.style.colorRGB = some (0, 0, 0) := by
    rintro t b sz ib lv rfl
    rw [addStyledStyleEq]
    exact ⟨rfl, rfl, rfl⟩
  unfold generateWordReport at hp
  simp only [List.cons_append, List.nil_append, List.mem_cons, List.mem_append] at hp
  rcases hp with rfl | rfl | rfl | hp
  · exact Or.inr ⟨rfl, rfl, rfl⟩
  · exact Or.inr (hadd _ _ _ _ _ rfl)
  · exact Or.inl rfl
  · rcases hp with hp | hp
    · rcases hp with hp | hp
      · split at hp
        · rcases List.mem_cons.mp hp with rfl | hp
          · exact Or.inr (hadd _ _ _ _ _ rfl)
          · rcases List.mem_singleton.mp hp with rfl
            exact Or.inr (hadd _ _ _ _ _ rfl)
        · cases hp
      · rcases memStructuredBlockAdd _ _ _ p hp with ⟨t, b, sz, ib, lv, hq⟩
        exact Or.inr (hadd t b sz ib lv hq)
    · rcases memOtherBlockAdd _ _ p hp with ⟨t, b, sz, ib, lv, hq⟩
      exact Or.inr (hadd t b sz ib lv hq)

/-- Claim C8 witness: the font and colour theorem applied to the title
run of a concrete document. -/
theorem c8_fonts_and_color_witness :
    titleParagraph "Acme - Widget Interview Record"
        ∈ generateWordReport ⟨some "en", some "Summary", some [], some []⟩
            "Acme" "Widget" "2026-01-01" "commercial" ""
    ∧ (titleParagraph "Acme - Widget Interview Record" = horizontalRulePara ∨
        ((titleParagraph "Acme - Widget Interview Record").style.latinFont
            = some "Times New Roman"
          ∧ (titleParagraph "Acme - Widget Interview Record").style.eastAsiaFont = some "微软雅黑"
          ∧ (titleParagraph "Acme - Widget Interview Record").style.colorRGB = some (0, 0, 0))) :=
  ⟨by decide,
    c8_fonts_and_color ⟨some "en", some "Summary", some [], some []⟩
      "Acme" "Widget" "2026-01-01" "commercial" ""
      (titleParagraph "Acme - Widget Interview Record") (by decide)⟩

/-- Claim C6 counterexample: a well formed JSON payload wrapped in a
plain fence without the json language tag is not stripped at all (the
response lacks the json tagged marker the code tests for), so the parser
is handed the fenced text rather than the payload and fence wrapping
alone does cause a parse failure. -/
theorem c6_fence_counterexample :
    extractPayloadText ("```" ++ "\n" ++ "\x7b\"language\": \"en\"\x7d" ++ "\n" ++ "```")
      = "```" ++ "\n" ++ "\x7b\"language\": \"en\"\x7d" ++ "\n" ++ "```"
    ∧ extractPayloadText ("```" ++ "\n" ++ "\x7b\"language\": \"en\"\x7d" ++ "\n" ++ "```")
      ≠ pyStrip "\x7b\"language\": \"en\"\x7d" := by decide

/-- Claim C6 (amended): for a payload free of fence characters, wrapping
it in the json tagged fence is tolerated: the marker and the closing
fence are stripped and json.loads receives exactly the stripped payload,
the same text it receives for the bare payload; only the untagged fence
of the counterexample defeats the stripping. -/
theorem c6_json_fence_stripped (p : String) (h : ∀ c ∈ p.data, c ≠ backtickChar) :
    extractPayloadText ("```json" ++ "\n" ++ p ++ "\n" ++ "```") = pyStrip p
    ∧ extractPayloadText p = pyStrip p := by
  have hbt7 : "```json".data
      = [backtickChar, backtickChar, backtickChar, 'j', 's', 'o', 'n'] := by decide
  have hbt3 : "```".data = [backtickChar, backtickChar, backtickChar] := by decide
  have hwdata : ("```json" ++ "\n" ++ p ++ "\n" ++ "```").data
      = "```json".data ++ (('\n' :: p.data ++ ['\n']) ++ "```".data) := by
    simp only [strDataAppend, List.append_assoc]
    rfl
  have hwdata2 : ("```json" ++ "\n" ++ p ++ "\n" ++ "```").data
      = backtickChar :: backtickChar :: backtickChar :: 'j' :: 's' :: 'o' :: 'n' ::
          (('\n' :: p.data ++ ['\n']) ++ "```".data) := by
    rw [hwdata, hbt7]
    rfl
  have hm : ∀ c ∈ '\n' :: p.data ++ ['\n'], c ≠ backtickChar := by
    intro c hc
    rcases List.mem_cons.mp hc with rfl | hc
    · decide
    · rcases List.mem_append.mp hc with hc | hc
      · exact h c hc
      · rcases List.mem_singleton.mp hc with rfl
        decide
  constructor
  · have hocc : occurs "```json".data ("```json" ++ "\n" ++ p ++ "\n" ++ "```").data = true := by
      rw [(occursIff _ _)]
      rw [hwdata]
      exact infOfPre (preOfAppend _ _)
    have hchain : remove3 backtickChar backtickChar backtickChar
        (remove7 backtickChar backtickChar backtickChar 'j' 's' 'o' 'n'
          ("```json" ++ "\n" ++ p ++ "\n" ++ "```").data)
        = '\n' :: p.data ++ ['\n'] := by
      rw [hwdata2, remove7HeadMatch]
      rw [remove7SkipAppend backtickChar backtickChar backtickChar 'j' 's' 'o' 'n'
        ('\n' :: p.data ++ ['\n']) "```".data hm]
      rw [show remove7 backtickChar backtickChar backtickChar 'j' 's' 'o' 'n' "```".data
        = "```".data by decide]
      rw [remove3SkipAppend backtickChar backtickChar backtickChar
        ('\n' :: p.data ++ ['\n']) "```".data hm]
      rw [hbt3, remove3HeadMatch]
      simp [remove3]
    have hstripm : stripChars (('\n' :: p.data) ++ ['\n']) = stripChars p.data := by
      rw [stripAppendWs '\n' (by decide) ('\n' :: p.data)]
      exact stripConsWs '\n' (by decide) p.data
    unfold extractPayloadText
    rw [hocc]
    simp only [if_true]
    unfold pyStrip
    rw [hchain]
    exact congrArg String.mk hstripm
  · have hocc : occurs "```json".data p.data = false := by
      cases hoc : occurs "```json".data p.data
      · rfl
      · exfalso
        rcases (occursIff _ _).mp hoc with ⟨s, t, hst⟩
        have hbmem : backtickChar ∈ p.data := by
          rw [← hst, hbt7]
          simp
        exact h backtickChar hbmem rfl
    unfold extractPayloadText
    rw [hocc]
    simp only [Bool.false_eq_true, if_false]

/-- Claim C6 witness: the fence stripping theorem applied to a concrete
JSON payload. -/
theorem c6_json_fence_stripped_witness :
    (∀ c ∈ ("\x7b\"language\": \"en\"\x7d" : String).data, c ≠ backtickChar)
    ∧ extractPayloadText ("```json" ++ "\n" ++ "\x7b\"language\": \"en\"\x7d" ++ "\n" ++ "```")
      = pyStrip "\x7b\"language\": \"en\"\x7d" :=
  ⟨by decide, (c6_json_fence_stripped "\x7b\"language\": \"en\"\x7d" (by decide)).1⟩

/-- Claim C10: in meeting mode with an empty topic the two defaults
diverge exactly as described: the download file name falls back to the
word Meeting, while the document title line falls back to Internal
Meeting in English and to the Chinese internal meeting label in Chinese,
and the built document really opens with that English title line. -/
theorem c10_meeting_defaults (company product dateStr : String) :
    reportFileName "meeting" company product "" dateStr
        = "Minutes_Meeting_" ++ dateStr ++ ".docx"
    ∧ (reportLabels "en" "meeting" company product "").titleText
        = "Internal Meeting - Meeting Minutes"
    ∧ (reportLabels "zh" "meeting" company product "").titleText
        = "内部会议 - 会议纪要"
    ∧ ((generateWordReport ⟨some "en", some "", some [], some []⟩ company product dateStr
          "meeting" "").head?).map Para.text
        = some "Internal Meeting - Meeting Minutes" := by
  exact ⟨rfl, rfl, rfl, rfl⟩
